import Mathlib

/-!
Verification of the remote orchestration engine of libgit2 (`src/remote.c`)
against its natural-language specification.

The development shallowly embeds the functions of `src/remote.c` that the
claims touch.  Strings are Lean `String`s, machine integers carrying libgit2
error codes are `Int`, config and ref stores are association lists, and the
external collaborators (config backend, transport, reference store, object
database, user callbacks) are passed in as explicit data.  Code of the
repository that is not part of the provided sources (`refspec.c`, `refs.c`,
the headers defining the new error codes) is modelled from the
specification's words; every such definition is marked `Modelled from the
spec:` in its doc comment.
-/

namespace Libgit2Remote

/-! ### String primitives

`remote.c` manipulates NUL-terminated C strings through `strlen`,
`git__prefixcmp`, `strcmp`, pointer offsets (`url + match_length`) and
`git_buf` concatenation.  The embeddings below give those operations their
standard meaning on the character list backing a Lean `String`.
-/

/-- `strlen`. -/
def strLen (s : String) : Nat := s.data.length

/-- The suffix past byte offset `n`: the C idiom `s + n`. -/
def strDrop (s : String) (n : Nat) : String := ⟨s.data.drop n⟩

/-- The first `n` characters: the C idiom `strndup(s, n)`. -/
def strTake (s : String) (n : Nat) : String := ⟨s.data.take n⟩

/-- `git__prefixcmp(s, p) == 0`: `p` is a prefix of `s`. -/
def strIsPrefix (p s : String) : Bool := p.data.isPrefixOf s.data

/-! ### Error codes

The numeric values down to `GIT_ITEROVER` are the ones of `git2/errors.h`.
-/

def GIT_OK : Int := 0

def GIT_ERROR : Int := -1

def GIT_ENOTFOUND : Int := -3

def GIT_EEXISTS : Int := -4

def GIT_EINVALIDSPEC : Int := -12

def GIT_EINVALID : Int := -21

def GIT_ITEROVER : Int := -31

/-- Modelled from the spec: the would-block result (`would-block — an
operation suspended`).  The fork's header defining the numeric value is not
among the sources; any distinct negative value serves, the code only tests
`err < 0` and equality with the constant. -/
def GIT_EAGAIN : Int := -100

/-- Modelled from the spec: the busy result (`busy — an operation is already
in flight on this handle`).  The header defining the numeric value is not
among the sources; any distinct negative value serves. -/
def GIT_EBUSY : Int := -101

/-! ### Claim C2: the insteadOf URL rewriter

`apply_insteadof` iterates over the configuration entries whose key matches
`url.*.insteadof` (fetch direction) or `url.*.pushinsteadof` (push
direction).  The config backend is an external collaborator; the embedding
receives the list of entries that the glob iterator yields, in iteration
order, each a (name, value) pair with the name of the shape
`url.<replacement>.insteadof` resp. `url.<replacement>.pushinsteadof`.
-/

structure ConfigEntry where
  name : String
  value : String
deriving Repr, DecidableEq

/-- `suffix_length` of `apply_insteadof`: strlen of `insteadof`
resp. `pushinsteadof`, plus 1 for the escaped dot. -/
def insteadofSuffixLen (isFetch : Bool) : Nat :=
  if isFetch then 10 else 14

/-- The `<replacement>` captured from the key: `apply_insteadof` cuts
`prefix_length = strlen("url") + 1 = 4` characters off the front of the
entry name and keeps `strlen(name) - (prefix_length + suffix_length)`
characters. -/
def insteadofReplacement (isFetch : Bool) (name : String) : String :=
  strTake (strDrop name 4) (strLen name - (4 + insteadofSuffixLen isFetch))

/-- One iteration of the `while (git_config_next(&entry, iter) == 0)` loop of
`apply_insteadof`: skip the entry unless its value is a prefix of the URL
strictly longer than the best match so far; otherwise record its length and
the replacement captured from its key. -/
def insteadofStep (isFetch : Bool) (url : String)
    (st : Nat × Option String) (e : ConfigEntry) : Nat × Option String :=
  if ¬ strIsPrefix e.value url then st
  else if strLen e.value ≤ st.1 then st
  else (strLen e.value, some (insteadofReplacement isFetch e.name))

/-- `apply_insteadof` of `remote.c`: fold the loop over the entries starting
from `match_length = 0`, `replacement = NULL`; if no (nonempty) prefix
matched return the URL unchanged, otherwise print `%s%s` of the replacement
and the URL past the matched prefix. -/
def apply_insteadof (isFetch : Bool) (entries : List ConfigEntry)
    (url : String) : String :=
  let st := entries.foldl (insteadofStep isFetch url) (0, none)
  if st.1 = 0 then url
  else (st.2.getD "") ++ strDrop url st.1

/-- Written from the spec's words (amended): among the entries whose value is
a nonempty prefix of the URL, choose the one with the longest value, ties
broken by the entry encountered first in iteration order. -/
def chooseInsteadof (url : String) : List ConfigEntry → Option ConfigEntry
  | [] => none
  | e :: rest =>
    let best := chooseInsteadof url rest
    if 0 < strLen e.value ∧ strIsPrefix e.value url then
      match best with
      | none => some e
      | some b => if strLen e.value < strLen b.value then some b else some e
    else best

/-- The amended claim's result: the URL with the chosen prefix replaced by
the replacement captured from the chosen key, the URL unchanged when no
entry's value is a nonempty prefix of it. -/
def insteadofSpecResult (isFetch : Bool) (entries : List ConfigEntry)
    (url : String) : String :=
  match chooseInsteadof url entries with
  | none => url
  | some e => insteadofReplacement isFetch e.name ++ strDrop url (strLen e.value)

/-- The claim as stated resolves ties in favour of the entry encountered
last: among the entries whose value is a (nonempty) prefix of the URL,
choose the one with the longest value, ties broken by the entry encountered
last. -/
def chooseInsteadofLastWins (url : String) : List ConfigEntry → Option ConfigEntry
  | [] => none
  | e :: rest =>
    let best := chooseInsteadofLastWins url rest
    if 0 < strLen e.value ∧ strIsPrefix e.value url then
      match best with
      | none => some e
      | some b => if strLen b.value < strLen e.value then some e else some b
    else best

/-- The claim's result with last-wins tie breaking. -/
def insteadofClaimResult (isFetch : Bool) (entries : List ConfigEntry)
    (url : String) : String :=
  match chooseInsteadofLastWins url entries with
  | none => url
  | some e => insteadofReplacement isFetch e.name ++ strDrop url (strLen e.value)

/-! ### Refspecs

`refspec.c` is not among the provided sources; the refspec data type and its
operations are modelled from the specification (§4.1): patterns are either
literal ref names or carry a single trailing `*`, matching is prefix
equality on the non-wildcard portion, transform substitutes the wildcard
tail from the source into the destination, and parsing accepts an optional
leading `+`, a source, an optional `:` and destination, failing with
invalid-spec on any other shape.
-/

/-- Split a character list at every occurrence of `c` (the `:` separator of
a refspec). -/
def splitOnChar (c : Char) : List Char → List (List Char)
  | [] => [[]]
  | x :: xs =>
    let r := splitOnChar c xs
    if x = c then [] :: r
    else
      match r with
      | [] => [[x]]
      | y :: ys => (x :: y) :: ys

/-- Modelled from the spec: a pattern carries a single trailing `*`. -/
def patIsGlob (p : String) : Bool := p.data.getLast? == some '*'

/-- The non-wildcard portion of a pattern (everything before the `*`). -/
def patBase (p : String) : String := ⟨p.data.dropLast⟩

/-- Modelled from the spec: matching is exact for literal patterns and
prefix equality on the non-wildcard portion for wildcard patterns. -/
def patMatches (p name : String) : Bool :=
  if patIsGlob p then strIsPrefix (patBase p) name else p == name

/-- Modelled from the spec: substitute the wildcard tail of `name` (matched
against `psrc`) into `pdst`; a literal source maps to the literal
destination. -/
def patSubstitute (psrc pdst name : String) : String :=
  if patIsGlob psrc then patBase pdst ++ strDrop name (strLen (patBase psrc))
  else pdst

/-- Modelled from the spec: literal ref names must be valid; validity is
approximated as nonempty and free of the refspec metacharacters `*`, `:`
and space. -/
def validRefName (s : String) : Bool :=
  !s.data.isEmpty && s.data.all (fun c => !(c == '*' || c == ':' || c == ' '))

/-- A pattern side of a refspec: a valid literal name or a wildcard whose
non-wildcard portion is a valid name. -/
def validPatternStr (s : String) : Bool :=
  if patIsGlob s then validRefName (patBase s) else validRefName s

def isHexDigitChar (c : Char) : Bool :=
  c.isDigit || ('a' ≤ c && c ≤ 'f')

/-- A full hex object id (a push spec's source may be an object id). -/
def isOidStr (s : String) : Bool :=
  s.data.length == 40 && s.data.all isHexDigitChar

/-- Modelled from the spec: the refspec record — source pattern, optional
destination pattern, force flag, push flag, original string. -/
structure Refspec where
  src : String
  dst : Option String
  force : Bool
  push : Bool
  string : String
deriving Repr, DecidableEq

/-- Modelled from the spec: `git_refspec__parse`.  Optional leading `+`
(force), then source, optional `:`, optional destination; sides are valid
literal names or single-trailing-`*` patterns (which must agree on being
patterns for the transform to be defined); a push source may also be an
object id or the empty string; anything else is rejected. -/
def parseRefspec (isFetch : Bool) (s : String) : Option Refspec :=
  let force := s.data.head? == some '+'
  let rest := if force then strDrop s 1 else s
  match splitOnChar ':' rest.data with
  | [src] =>
    if validPatternStr ⟨src⟩ then some ⟨⟨src⟩, none, force, !isFetch, s⟩
    else none
  | [src, dst] =>
    let srcS : String := ⟨src⟩
    let dstS : String := ⟨dst⟩
    let srcOk := validPatternStr srcS || (!isFetch && (src.isEmpty || isOidStr srcS))
    if srcOk && validPatternStr dstS && (patIsGlob srcS == patIsGlob dstS) then
      some ⟨srcS, some dstS, force, !isFetch, s⟩
    else none
  | _ => none

/-- Modelled from the spec: `git_refspec_src_matches`. -/
def refspecSrcMatches (r : Refspec) (name : String) : Bool :=
  patMatches r.src name

/-- Modelled from the spec: `git_refspec_dst_matches`; a spec without a
destination matches nothing on the destination side. -/
def refspecDstMatches (r : Refspec) (name : String) : Bool :=
  match r.dst with
  | some d => patMatches d name
  | none => false

/-- Modelled from the spec: `git_refspec_transform`. -/
def refspecTransform (r : Refspec) (name : String) : Option String :=
  r.dst.map (fun d => patSubstitute r.src d name)

/-- Modelled from the spec: `git_refspec_rtransform`. -/
def refspecRtransform (r : Refspec) (name : String) : Option String :=
  r.dst.map (fun d => patSubstitute d r.src name)

/-- `git_remote_is_valid_name`: nonempty and the synthetic refspec
`refs/heads/test:refs/remotes/<name>/test` parses. -/
def git_remote_is_valid_name (name : String) : Bool :=
  if name.data.isEmpty then false
  else (parseRefspec true ("refs/heads/test:refs/remotes/" ++ name ++ "/test")).isSome

/-! ### Claim C6: the fetchspec decision of `git_remote_create_with_opts` -/

/-- The create options consulted by the fetchspec logic of
`git_remote_create_with_opts` (the instead-of handling and url
canonicalization are orthogonal and elided). -/
structure CreateOpts where
  name : Option String
  fetchspec : Option String
  repository : Bool
  skipDefaultFetchspec : Bool
deriving Repr, DecidableEq

/-- `default_fetchspec_for_name`. -/
def default_fetchspec_for_name (name : String) : String :=
  "+refs/heads/*:refs/remotes/" ++ name ++ "/*"

/-- The fetchspec block of `git_remote_create_with_opts` (lines 387–411):
entered when `opts->fetchspec != NULL || (opts->name && !(opts->flags &
GIT_REMOTE_CREATE_SKIP_DEFAULT_FETCHSPEC))`.  Returns the refspec string
added to the remote and whether it is written to config (only for named
remotes with a repository), or `none` when the block is skipped.  The
embedding covers the successful path; an add or write failure aborts the
whole creation. -/
def createFetchspecActions (opts : CreateOpts) : Option (String × Bool) :=
  if opts.fetchspec.isSome ∨ (opts.name.isSome ∧ ¬opts.skipDefaultFetchspec) then
    let fetch : String :=
      match opts.fetchspec, opts.name with
      | some fs, _ => fs
      | none, some n => default_fetchspec_for_name n
      | none, none => ""
    some (fetch, opts.repository && opts.name.isSome)
  else none

/-! ### Claims C8 and C1: the pending-callback stack -/

/-- The resume callbacks of `remote.c`, plus the frames that the external
transport pushes for its own suspended I/O (`externalFrame`). -/
inductive Frame where
  | connectPerform
  | connectPerformUrl
  | downloadPerformNegotiate
  | downloadPerformConnect
  | fetchPerformConnect
  | fetchPerformDownload
  | fetchPerformDisconnect
  | uploadPerformFinish
  | uploadPerformConnect
  | pushPerformConnect
  | pushPerformUpload
  | pushPerformDisconnect
  | externalFrame (k : Nat)
deriving Repr, DecidableEq

/-- Modelled from the spec: `ARRAY_SIZE(remote->perform_callbacks)` — the
maximum depth of the pending-callback stack, `sized for the longest stage
chain, ~8` (the header declaring the array is not among the sources). -/
def PERFORM_CB_MAX : Nat := 8

/-- `git_remote_add_performcb`: push `cb` if the stack is not full,
otherwise fail with `GIT_ERROR` and leave the stack unchanged.  The list
head models the top of the stack (the highest array index). -/
def git_remote_add_performcb (st : List Frame) (cb : Frame) : Int × List Frame :=
  if st.length < PERFORM_CB_MAX then (GIT_OK, cb :: st)
  else (GIT_ERROR, st)

/-- `git_remote_dispatch_performcb` without invoking the popped callback:
the stack effect (pop the top) and the result when the stack is empty.  The
full interpreter below performs the invocation. -/
def dispatchPop (st : List Frame) : Option (Frame × List Frame) :=
  match st with
  | [] => none
  | cb :: rest => some (cb, rest)

/-- `check_busy`: fail with `GIT_EBUSY` iff `remote->perform_num_cb` is
non-zero. -/
def check_busy (st : List Frame) : Int :=
  if st.length ≠ 0 then GIT_EBUSY else GIT_OK

/-! ### Claim C9: `git_remote_default_branch` -/

/-- Object ids, compared only for equality; the all-zero id is `0`. -/
abbrev Oid := Nat

/-- An advertised head: name, object id, optional symbolic target. -/
structure RemoteHead where
  name : String
  oid : Oid
  symrefTarget : Option String
deriving Repr, DecidableEq

/-- The guessing loop of `git_remote_default_branch` (`for (i = 1; ...)`)
over the heads after the first: skip heads with a different id or outside
`refs/heads/`; the first candidate becomes the guess; a later candidate
named `refs/heads/master` replaces the guess and breaks. -/
def defaultBranchScan (headId : Oid) : List RemoteHead → Option RemoteHead → Option RemoteHead
  | [], guess => guess
  | h :: rest, guess =>
    if h.oid ≠ headId then defaultBranchScan headId rest guess
    else if ¬ strIsPrefix "refs/heads/" h.name then defaultBranchScan headId rest guess
    else
      match guess with
      | none => defaultBranchScan headId rest (some h)
      | some _ =>
        if h.name = "refs/heads/master" then some h
        else defaultBranchScan headId rest guess

/-- `git_remote_default_branch` given the advertised heads of a connected
remote: not-found without heads or when the first head is not literally
`HEAD`; the first head's symbolic target if it carries one; otherwise the
result of the guessing loop. -/
def git_remote_default_branch (heads : List RemoteHead) : Int × Option String :=
  match heads with
  | [] => (GIT_ENOTFOUND, none)
  | h0 :: rest =>
    if h0.name ≠ "HEAD" then (GIT_ENOTFOUND, none)
    else
      match h0.symrefTarget with
      | some t => (GIT_OK, some t)
      | none =>
        match defaultBranchScan h0.oid rest none with
        | none => (GIT_ENOTFOUND, none)
        | some g => (GIT_OK, some g.name)

/-- The candidate predicate of the guessing loop: same object id as `HEAD`
and under `refs/heads/`. -/
def defaultBranchCandidate (headId : Oid) (h : RemoteHead) : Bool :=
  h.oid == headId && strIsPrefix "refs/heads/" h.name

/-! ### Claim C10: `write_add_refspec` and the add-refspec entry points -/

/-- `write_add_refspec`: resolve the repo config (modelled as always
available), validate the remote name, parse the refspec (failure reported
as invalid-spec), then perform the `$^`-guarded multivar write — whose
result `setMultivarResult` the function discards, reaching `return 0`
regardless. -/
def write_add_refspec (name refspec : String) (fetch : Bool)
    (setMultivarResult : Int) : Int :=
  if ¬ git_remote_is_valid_name name then GIT_EINVALIDSPEC
  else if (parseRefspec fetch refspec).isNone then GIT_EINVALIDSPEC
  else
    let _ := setMultivarResult
    GIT_OK

/-- `git_remote_add_fetch`. -/
def git_remote_add_fetch (name refspec : String) (setMultivarResult : Int) : Int :=
  write_add_refspec name refspec true setMultivarResult

/-- `git_remote_add_push`. -/
def git_remote_add_push (name refspec : String) (setMultivarResult : Int) : Int :=
  write_add_refspec name refspec false setMultivarResult

/-! ### Claim C7: `git_remote_lookup` -/

/-- The download-tags policy. -/
inductive TagOption where
  | noTags
  | auto
  | all
  | unspecified
deriving Repr, DecidableEq

/-- The configuration state consulted by `git_remote_lookup` for one remote
name: the `remote.<name>.*` keys and the instead-of entries (the config
backend is an external collaborator). -/
structure RemoteConfig where
  url : Option String
  pushurl : Option String
  fetch : List String
  push : List String
  tagopt : Option String
  prune : Option Bool
  fetchPrune : Option Bool
  insteadof : List ConfigEntry
  pushinsteadof : List ConfigEntry
deriving Repr, DecidableEq

/-- The in-memory remote hydrated by `git_remote_lookup`. -/
structure RemoteData where
  name : String
  url : Option String
  pushurl : Option String
  refspecs : List Refspec
  downloadTags : TagOption
  pruneRefs : Bool
deriving Repr, DecidableEq

/-- Parse a list of refspec strings in order, failing when any fails
(`refspec_cb` → `add_refspec`). -/
def parseSpecs (isFetch : Bool) (l : List String) : Option (List Refspec) :=
  l.mapM (parseRefspec isFetch)

/-- `git_remote_lookup`: validate the name; read `url` and `pushurl`; fail
with not-found iff neither key is present; apply the instead-of rewrite to
the nonempty ones; hydrate refspecs (any parse failure aborts with `-1`),
tag option (`--no-tags` ⇒ NONE, `--tags` ⇒ ALL, else AUTO) and the prune
flag (`remote.<name>.prune`, falling back to `fetch.prune`, else false).
DWIM of the active set never fails and is elided from the result. -/
def git_remote_lookup (name : String) (cfg : RemoteConfig) : Int × Option RemoteData :=
  if ¬ git_remote_is_valid_name name then (GIT_EINVALIDSPEC, none)
  else if cfg.url.isNone ∧ cfg.pushurl.isNone then (GIT_ENOTFOUND, none)
  else
    let url := match cfg.url with
      | some u => if 0 < strLen u then some (apply_insteadof true cfg.insteadof u) else none
      | none => none
    let pushurl := match cfg.pushurl with
      | some u => if 0 < strLen u then some (apply_insteadof false cfg.pushinsteadof u) else none
      | none => none
    match parseSpecs true cfg.fetch, parseSpecs false cfg.push with
    | some fs, some ps =>
      let dt := match cfg.tagopt with
        | some v => if v = "--no-tags" then TagOption.noTags
                    else if v = "--tags" then TagOption.all
                    else TagOption.auto
        | none => TagOption.auto
      let pr := match cfg.prune with
        | some b => b
        | none => cfg.fetchPrune.getD false
      (GIT_OK, some ⟨name, url, pushurl, fs ++ ps, dt, pr⟩)
    | _, _ => (GIT_ERROR, none)

/-! ### Claims C4 and C5: `update_tips_for_spec`

The per-head body of `update_tips_for_spec` (lines 1861–1942), threading the
local reference store.  The object database, the ref-name validity predicate
(`git_reference_is_valid_name` lives in `refs.c`, not among the sources) and
the caller's `update_tips` callback are environment data.
-/

/-- `GIT_REFSPEC_TAGS`, the built-in tag spec `refs/tags/*:refs/tags/*`, as
parsed by `git_refspec__parse(&tagspec, GIT_REFSPEC_TAGS, true)`. -/
def gitRefspecTags : Refspec :=
  ⟨"refs/tags/*", some "refs/tags/*", false, false, "refs/tags/*:refs/tags/*"⟩

/-- The environment of `update_tips_for_spec`: the validity predicate for
advertised names, the object database (a set of ids, `git_odb_exists`) and
the optional `update_tips` callback. -/
structure TipsEnv where
  refNameValid : String → Bool
  odb : List Oid
  cb : Option (String → Oid → Oid → Int)

/-- The outcome of processing one advertised head: whether the callback
vetoed (`goto on_error`), the updated store, the callback invocations, the
`git_reference_create` attempts as (refname, id, force), the actually
created/updated reference as (refname, old id, new id), and the heads
emitted towards FETCH_HEAD. -/
structure HeadStep where
  aborted : Bool
  store : List (String × Oid)
  events : List (String × Oid × Oid)
  creations : List (String × Oid × Bool)
  createdRef : Option (String × Oid × Oid)
  updateHeads : List RemoteHead

/-- The outcome of the whole loop. -/
structure TipsResult where
  err : Int
  store : List (String × Oid)
  events : List (String × Oid × Oid)
  creations : List (String × Oid × Bool)
  updateHeads : List RemoteHead

/-- `git_reference_name_to_id` over the direct-reference store. -/
def refLookup (store : List (String × Oid)) (name : String) : Option Oid :=
  (store.find? (fun p => p.1 == name)).map (·.2)

/-- Overwrite or insert a reference. -/
def refWrite (store : List (String × Oid)) (name : String) (oid : Oid) :
    List (String × Oid) :=
  match refLookup store name with
  | some _ => store.map (fun p => if p.1 == name then (name, oid) else p)
  | none => (name, oid) :: store

/-- `git_reference_create`: refuse with already-exists when the target
exists and `force` is unset, otherwise write. -/
def refCreate (store : List (String × Oid)) (name : String) (oid : Oid)
    (force : Bool) : Int × List (String × Oid) :=
  if (refLookup store name).isSome && !force then (GIT_EEXISTS, store)
  else (GIT_OK, refWrite store name oid)

/-- One iteration of the head loop of `update_tips_for_spec`: skip invalid
names; a head matching the built-in tag spec under a policy other than NONE
takes the head name verbatim as destination (auto-tag under AUTO); a
non-auto-tag head matching `spec->src` is transformed through the spec when
it has a destination, or emitted to FETCH_HEAD only when it has none; heads
without a destination name are skipped, as are AUTO tags whose object is
not in the local odb; the existing id (zero when absent) is compared, equal
ids are skipped; the reference is created with `force = !autotag`,
already-exists being tolerated; finally the `update_tips` callback runs and
a negative return aborts. -/
def processHead (env : TipsEnv) (tagopt : TagOption) (spec : Refspec)
    (store : List (String × Oid)) (head : RemoteHead) : HeadStep :=
  if ¬ env.refNameValid head.name then ⟨false, store, [], [], none, []⟩
  else
    let tagMatched :=
      refspecSrcMatches gitRefspecTags head.name && !(tagopt == TagOption.noTags)
    let autotag := tagMatched && (tagopt == TagOption.auto)
    let refname0 : Option String := if tagMatched then some head.name else none
    if !autotag && refspecSrcMatches spec head.name && spec.dst.isNone then
      ⟨false, store, [], [], none, [head]⟩
    else
      let refname : Option String :=
        if !autotag && refspecSrcMatches spec head.name then
          refspecTransform spec head.name
        else refname0
      match refname with
      | none => ⟨false, store, [], [], none, []⟩
      | some rn =>
        if autotag && !(env.odb.contains head.oid) then
          ⟨false, store, [], [], none, []⟩
        else
          let old? := refLookup store rn
          let uh : List RemoteHead :=
            if !autotag then [head] else if old?.isNone then [head] else []
          let old := old?.getD 0
          if old == head.oid then ⟨false, store, [], [], none, uh⟩
          else
            let c := refCreate store rn head.oid (!autotag)
            if c.1 == GIT_EEXISTS then
              ⟨false, c.2, [], [(rn, head.oid, !autotag)], none, uh⟩
            else
              match env.cb with
              | none =>
                ⟨false, c.2, [], [(rn, head.oid, !autotag)],
                  some (rn, old, head.oid), uh⟩
              | some f =>
                ⟨decide (f rn old head.oid < 0), c.2, [(rn, old, head.oid)],
                  [(rn, head.oid, !autotag)], some (rn, old, head.oid), uh⟩

/-- The head loop of `update_tips_for_spec`: process the advertised heads in
order, stopping with `-1` when a head's callback vetoes (the remaining
heads are not processed). -/
def update_tips_for_spec (env : TipsEnv) (tagopt : TagOption) (spec : Refspec)
    (store : List (String × Oid)) : List RemoteHead → TipsResult
  | [] => ⟨GIT_OK, store, [], [], []⟩
  | h :: t =>
    let p := processHead env tagopt spec store h
    if p.aborted then ⟨GIT_ERROR, p.store, p.events, p.creations, p.updateHeads⟩
    else
      let r := update_tips_for_spec env tagopt spec p.store t
      ⟨r.err, r.store, p.events ++ r.events, p.creations ++ r.creations,
        p.updateHeads ++ r.updateHeads⟩

/-- An environment whose `update_tips` callback always returns the positive
value 1 (every name valid, empty odb). -/
def positiveCbEnv : TipsEnv :=
  ⟨fun _ => true, [], some (fun _ _ _ => 1)⟩

/-- An environment without a callback (every name valid, empty odb). -/
def noCbEnv : TipsEnv :=
  ⟨fun _ => true, [], none⟩

/-- An environment whose `update_tips` callback always vetoes with -1. -/
def negCbEnv : TipsEnv :=
  ⟨fun _ => true, [], some (fun _ _ _ => -1)⟩

/-- The default-shaped fetch spec `+refs/heads/*:refs/remotes/origin/*`. -/
def originHeadsSpec : Refspec :=
  ⟨"refs/heads/*", some "refs/remotes/origin/*", true, false,
    "+refs/heads/*:refs/remotes/origin/*"⟩

/-- A fetch spec whose source claims the tag namespace,
`+refs/tags/*:refs/remotes/origin/tags/*`. -/
def originTagsSpec : Refspec :=
  ⟨"refs/tags/*", some "refs/remotes/origin/tags/*", true, false,
    "+refs/tags/*:refs/remotes/origin/tags/*"⟩

/-! ### Claim C3: `git_remote_prune`

The local reference store distinguishes direct and symbolic references;
`git_reference_list` yields the names in store order.  The advertised heads
are the `ls_to_vector` copy searched by name, the callback is the caller's
`update_tips` hook.
-/

/-- A local reference: direct (an object id) or symbolic (a target name). -/
inductive RefVal where
  | direct (oid : Oid)
  | symbolic (target : String)
deriving Repr, DecidableEq

abbrev RefStore := List (String × RefVal)

/-- `git_reference_lookup` by name. -/
def refStoreLookup (store : RefStore) (name : String) : Option RefVal :=
  (store.find? (fun p => p.1 == name)).map (·.2)

/-- `git_reference_delete`. -/
def refStoreDelete (store : RefStore) (name : String) : RefStore :=
  store.filter (fun p => !(p.1 == name))

def isDirectRef (v : RefVal) : Bool :=
  match v with
  | .direct _ => true
  | .symbolic _ => false

def refValOid (v : RefVal) : Oid :=
  match v with
  | .direct o => o
  | .symbolic _ => 0

/-- `git_vector_bsearch` over the `ls_to_vector` copy: an advertised head
with the given name exists. -/
def headAdvertised (heads : List RemoteHead) (name : String) : Bool :=
  heads.any (fun rh => rh.name == name)

/-- `git_remote__matching_dst_refspec`: some active non-push refspec whose
destination side matches the name. -/
def git_remote__matching_dst_refspec (active : List Refspec) (name : String) : Bool :=
  active.any (fun s => !s.push && refspecDstMatches s name)

/-- `prune_candidates`: the local ref names (in store order) matching the
destination side of an active fetch refspec. -/
def prune_candidates (active : List Refspec) (store : RefStore) : List String :=
  (store.map (·.1)).filter (git_remote__matching_dst_refspec active)

/-- The keep check of the first `git_remote_prune` loop: some active
refspec (push specs included here) dst-matches the candidate and its
reverse-transform is advertised. -/
def pruneKeep (active : List Refspec) (heads : List RemoteHead) (name : String) : Bool :=
  active.any (fun s => refspecDstMatches s name &&
    headAdvertised heads ((refspecRtransform s name).getD ""))

/-- The candidate vector after the keep loop: kept candidates are nulled
(`git_vector_set(..., NULL)`). -/
def pruneMark (active : List Refspec) (heads : List RemoteHead)
    (cands : List String) : List (Option String) :=
  cands.map (fun n => if pruneKeep active heads n then none else some n)

structure PruneResult where
  err : Int
  store : RefStore
  events : List (String × Oid × Oid)
deriving Repr, DecidableEq

/-- The deletion loop of `git_remote_prune`: skip nulled candidates,
vanished references and symbolic references; delete the rest, firing
`update_tips(refname, old-id, zero-id)`; a negative callback return aborts
the loop.  (On the completed path the C function returns the status last
assigned inside the loops, which is 0 whenever this model's callback does
not return a negative value; the embedding normalises it to `GIT_OK`.) -/
def pruneDeleteLoop (cb : Option (String → Oid → Oid → Int)) :
    List (Option String) → RefStore → PruneResult
  | [], store => ⟨GIT_OK, store, []⟩
  | none :: rest, store => pruneDeleteLoop cb rest store
  | some n :: rest, store =>
    match refStoreLookup store n with
    | none => pruneDeleteLoop cb rest store
    | some (RefVal.symbolic _) => pruneDeleteLoop cb rest store
    | some (RefVal.direct o) =>
      let store' := refStoreDelete store n
      match cb with
      | none => pruneDeleteLoop cb rest store'
      | some f =>
        if f n o 0 < 0 then ⟨f n o 0, store', [(n, o, 0)]⟩
        else
          let r := pruneDeleteLoop cb rest store'
          ⟨r.err, r.store, (n, o, 0) :: r.events⟩

/-- `git_remote_prune`: collect the candidates, null the ones whose
reverse-transform is advertised under some dst-matching active spec, then
run the deletion loop. -/
def git_remote_prune (cb : Option (String → Oid → Oid → Int))
    (active : List Refspec) (heads : List RemoteHead) (store : RefStore) :
    PruneResult :=
  pruneDeleteLoop cb (pruneMark active heads (prune_candidates active store)) store

/-- The refs `git_remote_prune` deletes: dst-match of an active fetch spec,
kept by no active spec, present and non-symbolic. -/
def pruneTargetB (active : List Refspec) (heads : List RemoteHead)
    (store : RefStore) (name : String) : Bool :=
  git_remote__matching_dst_refspec active name &&
  !pruneKeep active heads name &&
  (match refStoreLookup store name with
   | some (RefVal.direct _) => true
   | _ => false)

/-- The claim as stated, reading the two conditions over a single spec:
**some** active fetch refspec dst-matches the name with its
reverse-transform not advertised (and the ref is present and
non-symbolic). -/
def pruneClaimTarget (active : List Refspec) (heads : List RemoteHead)
    (store : RefStore) (name : String) : Bool :=
  active.any (fun s => !s.push && refspecDstMatches s name &&
    !(headAdvertised heads ((refspecRtransform s name).getD ""))) &&
  (match refStoreLookup store name with
   | some (RefVal.direct _) => true
   | _ => false)

/-- A fetch spec funnelling the tag namespace into the same tracking
namespace as `originHeadsSpec`: `+refs/tags/*:refs/remotes/origin/*`. -/
def tagsToRemotesSpec : Refspec :=
  ⟨"refs/tags/*", some "refs/remotes/origin/*", true, false,
    "+refs/tags/*:refs/remotes/origin/*"⟩

/-! ### Claim C1: the resumable-operation machinery of the connect path

The embedding tracks the pending-callback stack of the remote handle — the
state the claim is about; transport slots and buffers are orthogonal and
elided.  External outcomes are an oracle: the result of URL resolution, the
result of `t->connect`, the number of resume frames the suspending
transport leaves on the stack (Modelled from the spec: the suspension
protocol, `result = inner(); if result == WouldBlock: push(resume_stage)`),
the results of the transport frames' later I/O, and whether each `select`
call of the synchronous adapter succeeds.
-/

structure ConnOracle where
  urlResult : Int
  connectResult : Int
  connectPushes : Nat
  extResult : Nat → Int
  selectOk : Nat → Bool

/-- The machine state: the pending-callback stack plus cursors into the
oracle's external-result and select-result streams. -/
structure ConnState where
  stack : List Frame
  extIdx : Nat
  selIdx : Nat
deriving Repr

/-- The suspending transport's own pushes onto the pending stack, each
through `git_remote_add_performcb`. -/
def pushExternalFrames (k : Nat) (stack : List Frame) : List Frame :=
  (List.range k).foldl (fun s i => (git_remote_add_performcb s (.externalFrame i)).2) stack

/-- `git_remote__connect_goturl` (transport acquisition and header/callback
setup elided — they do not touch the stack): `t->connect`; on would-block
the transport has pushed its resume frames and `git_remote__connect_perform`
is pushed on top; push failure is a terminal error. -/
def goturlRun (orc : ConnOracle) (st : ConnState) : Int × ConnState :=
  if orc.connectResult = GIT_EAGAIN then
    let stack1 := pushExternalFrames orc.connectPushes st.stack
    let (e, stack2) := git_remote_add_performcb stack1 .connectPerform
    if e < 0 then (e, { st with stack := stack2 })
    else (GIT_EAGAIN, { st with stack := stack2 })
  else (orc.connectResult, st)

/-- `git_remote__connect`: resolve the URL; on would-block push
`git_remote__connect_performurl`; on success continue with
`git_remote__connect_goturl`. -/
def connectRun (orc : ConnOracle) (st : ConnState) : Int × ConnState :=
  if orc.urlResult = GIT_EAGAIN then
    let (e, stack2) := git_remote_add_performcb st.stack .connectPerformUrl
    if e < 0 then (e, { st with stack := stack2 })
    else (GIT_EAGAIN, { st with stack := stack2 })
  else if orc.urlResult < 0 then (orc.urlResult, st)
  else goturlRun orc st

mutual

/-- `git_remote_dispatch_performcb` with the popped callback invoked:
empty stack reports not-found. -/
def dispatchRun (orc : ConnOracle) : Nat → ConnState → Int × ConnState
  | 0, st => (GIT_ERROR, st)
  | fuel + 1, st =>
    match st.stack with
    | [] => (GIT_ENOTFOUND, st)
    | cb :: rest => frameRun orc fuel cb { st with stack := rest }

/-- `git_remote_rearm_performcb`: dispatch the next frame down; would-block
re-pushes the given callback. -/
def rearmRun (orc : ConnOracle) (fuel : Nat) (cb : Frame) (st : ConnState) :
    Int × ConnState :=
  let (e, st1) := dispatchRun orc fuel st
  if e = GIT_EAGAIN then
    let (e2, stack2) := git_remote_add_performcb st1.stack cb
    if e2 < 0 then (e2, { st1 with stack := stack2 })
    else (GIT_EAGAIN, { st1 with stack := stack2 })
  else (e, st1)

/-- The bodies of the connect-path frames.  A transport frame performs its
I/O (the next oracle result), re-pushing itself on would-block (Modelled
from the spec: the resume closure pops itself, retries the inner operation
and re-suspends on WouldBlock); `git_remote__connect_perform` and
`git_remote__connect_performurl` follow `remote.c` (their transport-slot
and buffer cleanups elided).  Frames of the other operations are outside
this connect-path model. -/
def frameRun (orc : ConnOracle) (fuel : Nat) : Frame → ConnState → Int × ConnState
  | .externalFrame k, st =>
    let r := orc.extResult st.extIdx
    let st1 := { st with extIdx := st.extIdx + 1 }
    if r = GIT_EAGAIN then
      let (e, stack2) := git_remote_add_performcb st1.stack (.externalFrame k)
      if e < 0 then (e, { st1 with stack := stack2 })
      else (GIT_EAGAIN, { st1 with stack := stack2 })
    else (r, st1)
  | .connectPerform, st => rearmRun orc fuel .connectPerform st
  | .connectPerformUrl, st =>
    let (e, st1) := rearmRun orc fuel .connectPerformUrl st
    if e < 0 then (e, st1)
    else goturlRun orc st1
  | _, st => (GIT_EINVALID, st)

end

/-- `git_remote_perform`: dispatch; not-found means the remote is idle and
is reported as a plain error. -/
def performRun (orc : ConnOracle) (fuel : Nat) (st : ConnState) : Int × ConnState :=
  let (e, st1) := dispatchRun orc fuel st
  if e = GIT_ENOTFOUND then (GIT_ERROR, st1) else (e, st1)

/-- `perform_all`, the synchronous `select` loop: on a failed `select` the
loop stops the transport and returns a plain error **without draining the
pending-callback stack**; otherwise it re-enters `git_remote_perform` until
a result other than would-block appears. -/
def perform_allRun (orc : ConnOracle) : Nat → ConnState → Int × ConnState
  | 0, st => (GIT_ERROR, st)
  | fuel + 1, st =>
    if orc.selectOk st.selIdx then
      let (e, st2) := performRun orc (fuel + 1) { st with selIdx := st.selIdx + 1 }
      if e = GIT_EAGAIN then perform_allRun orc fuel st2 else (e, st2)
    else
      (GIT_ERROR, { st with selIdx := st.selIdx + 1 })

/-- `git_remote_connect` (headers, proxy and callback initialisation elided
— no stack effect): fail busy if the pending stack is non-empty; run
`git_remote__connect` through `perform_all_fun`, entering the synchronous
loop when the caller is synchronous and the operation suspended. -/
def git_remote_connectRun (orc : ConnOracle) (isSync : Bool) (fuel : Nat)
    (st : ConnState) : Int × ConnState :=
  if check_busy st.stack < 0 then (check_busy st.stack, st)
  else
    let (e, st1) := connectRun orc st
    if e = GIT_EAGAIN ∧ isSync then perform_allRun orc fuel st1 else (e, st1)

/-- The oracle of the failing scenario: URL resolution succeeds,
`t->connect` suspends leaving one transport frame, and the first `select`
call fails (as it does on `EINTR`). -/
def connBugOracle : ConnOracle :=
  ⟨GIT_OK, GIT_EAGAIN, 1, fun _ => GIT_EAGAIN, fun _ => false⟩

/-! ### Theorems -/

theorem chooseInsteadof_matches (url : String) :
    ∀ entries, ∀ e, chooseInsteadof url entries = some e →
      0 < strLen e.value ∧ strIsPrefix e.value url
  | [], e => by simp [chooseInsteadof]
  | a :: rest, e => by
    intro h
    simp only [chooseInsteadof] at h
    split at h
    · rename_i ha
      cases hrest : chooseInsteadof url rest with
      | none =>
        simp only [hrest] at h
        cases h
        exact ha
      | some b =>
        simp only [hrest] at h
        split at h
        · cases h
          exact chooseInsteadof_matches url rest _ hrest
        · cases h
          exact ha
    · exact chooseInsteadof_matches url rest e h

theorem insteadof_fold_choose (isFetch : Bool) (url : String) :
    ∀ (entries : List ConfigEntry) (n : Nat) (r : Option String),
      entries.foldl (insteadofStep isFetch url) (n, r) =
        match chooseInsteadof url entries with
        | none => (n, r)
        | some e =>
          if n < strLen e.value
          then (strLen e.value, some (insteadofReplacement isFetch e.name))
          else (n, r)
  | [], n, r => by simp [chooseInsteadof]
  | a :: rest, n, r => by
    simp only [List.foldl_cons, chooseInsteadof]
    by_cases hpre : strIsPrefix a.value url
    · by_cases hlen : strLen a.value ≤ n
      · have hstep : insteadofStep isFetch url (n, r) a = (n, r) := by
          simp [insteadofStep, hpre, hlen]
        rw [hstep, insteadof_fold_choose isFetch url rest n r]
        rcases hn : chooseInsteadof url rest with _ | b
        · by_cases hpos : 0 < strLen a.value
          · have hna : ¬ n < strLen a.value := by omega
            simp [hn, hpos, hpre, hna]
          · simp [hn, hpos]
        · by_cases hpos : 0 < strLen a.value
          · by_cases hb : strLen a.value < strLen b.value
            · simp [hn, hpos, hpre, hb]
            · have hna : ¬ n < strLen a.value := by omega
              have hnb : ¬ n < strLen b.value := by omega
              simp [hn, hpos, hpre, hb, hna, hnb]
          · simp [hn, hpos]
      · have hpos : 0 < strLen a.value := by omega
        have hstep : insteadofStep isFetch url (n, r) a =
            (strLen a.value, some (insteadofReplacement isFetch a.name)) := by
          simp [insteadofStep, hpre, hlen]
        rw [hstep, insteadof_fold_choose isFetch url rest (strLen a.value)
          (some (insteadofReplacement isFetch a.name))]
        rcases hn : chooseInsteadof url rest with _ | b
        · have hna : n < strLen a.value := by omega
          simp [hn, hpos, hpre, hna]
        · by_cases hb : strLen a.value < strLen b.value
          · have hnb : n < strLen b.value := by omega
            simp [hn, hpos, hpre, hb, hnb]
          · have hna : n < strLen a.value := by omega
            simp [hn, hpos, hpre, hb, hna]
    · have hstep : insteadofStep isFetch url (n, r) a = (n, r) := by
        simp [insteadofStep, hpre]
      rw [hstep, insteadof_fold_choose isFetch url rest n r]
      simp [hpre]

/-- C2 (amended): `apply_insteadof` scans all entries, chooses the entry
whose value is the longest nonempty prefix of the URL — ties broken by the
entry encountered **first** in iteration — and returns the URL with that
prefix replaced by the replacement captured from the key; the URL is
returned unchanged when no entry's value is a nonempty prefix of it. -/
theorem apply_insteadof_spec (isFetch : Bool) (entries : List ConfigEntry)
    (url : String) :
    apply_insteadof isFetch entries url = insteadofSpecResult isFetch entries url := by
  unfold apply_insteadof insteadofSpecResult
  rw [insteadof_fold_choose isFetch url entries 0 none]
  rcases hn : chooseInsteadof url entries with _ | e
  · simp
  · have he := chooseInsteadof_matches url entries e hn
    have h0 : 0 < strLen e.value := he.1
    have h1 : ¬ strLen e.value = 0 := by omega
    simp [h0, h1]

/-- C2 counterexample: with two entries carrying the same value `p`, a prefix
of the URL `pX`, the claim's last-wins tie breaking predicts `BBBX` while
`apply_insteadof` keeps the first entry and returns `AAAX`. -/
theorem apply_insteadof_tie_counterexample :
    insteadofClaimResult true
        [⟨"url.AAA.insteadof", "p"⟩, ⟨"url.BBB.insteadof", "p"⟩] "pX" = "BBBX" ∧
      apply_insteadof true
        [⟨"url.AAA.insteadof", "p"⟩, ⟨"url.BBB.insteadof", "p"⟩] "pX" = "AAAX" ∧
      ("AAAX" : String) ≠ "BBBX" := by
  refine ⟨by decide, by decide, by decide⟩

/-- C6: in `git_remote_create_with_opts`, an explicit `opts.fetchspec` is
added to the remote — and written to config exactly for a named remote with
a repository — regardless of the `GIT_REMOTE_CREATE_SKIP_DEFAULT_FETCHSPEC`
flag; without an explicit fetchspec the default
`+refs/heads/*:refs/remotes/<N>/*` is used only for a named remote without
the skip flag. -/
theorem create_with_opts_fetchspec (opts : CreateOpts) :
    (∀ fs, opts.fetchspec = some fs →
      createFetchspecActions opts = some (fs, opts.repository && opts.name.isSome)) ∧
    (∀ n, opts.fetchspec = none → opts.name = some n →
      createFetchspecActions opts =
        if opts.skipDefaultFetchspec then none
        else some (default_fetchspec_for_name n, opts.repository)) ∧
    (opts.fetchspec = none → opts.name = none → createFetchspecActions opts = none) := by
  refine ⟨?_, ?_, ?_⟩
  · intro fs hfs
    simp [createFetchspecActions, hfs]
  · intro n hf hn
    by_cases hs : opts.skipDefaultFetchspec
    · simp [createFetchspecActions, hf, hn, hs]
    · simp [createFetchspecActions, hf, hn, hs]
  · intro hf hn
    simp [createFetchspecActions, hf, hn]

/-- C6 witness: with the skip flag set and an explicit fetchspec, the
explicit spec is still added and written. -/
theorem create_with_opts_fetchspec_witness :
    createFetchspecActions
        ⟨some "origin", some "+refs/heads/*:refs/remotes/origin/*", true, true⟩ =
      some ("+refs/heads/*:refs/remotes/origin/*", true) :=
  (create_with_opts_fetchspec _).1 _ rfl

/-- C8: pushing onto a full pending-callback stack fails with an error and
leaves the stack unchanged, and no push ever grows the stack beyond the
fixed capacity. -/
theorem add_performcb_bounded (st : List Frame) (cb : Frame) :
    (st.length = PERFORM_CB_MAX →
      git_remote_add_performcb st cb = (GIT_ERROR, st)) ∧
    (st.length ≤ PERFORM_CB_MAX →
      (git_remote_add_performcb st cb).2.length ≤ PERFORM_CB_MAX) := by
  constructor
  · intro h
    simp [git_remote_add_performcb, h]
  · intro h
    by_cases hlt : st.length < PERFORM_CB_MAX
    · simp only [git_remote_add_performcb, hlt, if_true, List.length_cons]
      omega
    · simpa [git_remote_add_performcb, hlt] using h

/-- C8 witness: a push onto a stack of 8 frames fails and leaves it
unchanged; a push onto the empty stack respects the bound. -/
theorem add_performcb_bounded_witness :
    git_remote_add_performcb (List.replicate 8 .connectPerform) .fetchPerformConnect =
        (GIT_ERROR, List.replicate 8 .connectPerform) ∧
      (git_remote_add_performcb [] .connectPerform).2.length ≤ PERFORM_CB_MAX :=
  ⟨(add_performcb_bounded _ _).1 (by decide), (add_performcb_bounded _ _).2 (by decide)⟩

theorem defaultBranchScan_some (id : Oid) :
    ∀ (tail : List RemoteHead) (g : RemoteHead),
      defaultBranchScan id tail (some g) =
        match (tail.filter (defaultBranchCandidate id)).find?
            (fun h => h.name == "refs/heads/master") with
        | some m => some m
        | none => some g
  | [], g => by simp [defaultBranchScan]
  | h :: t, g => by
    by_cases h1 : h.oid = id
    · by_cases h2 : strIsPrefix "refs/heads/" h.name
      · by_cases h3 : h.name = "refs/heads/master"
        · have hc : defaultBranchCandidate id h = true := by
            simp [defaultBranchCandidate, h1, h2]
          have h2' := h2
          rw [h3] at h2'
          have hlhs : defaultBranchScan id (h :: t) (some g) = some h := by
            simp [defaultBranchScan, h1, h2, h2', h3]
          rw [hlhs]
          simp [hc, List.find?_cons, h3]
        · rw [show defaultBranchScan id (h :: t) (some g) =
              defaultBranchScan id t (some g) by
            simp [defaultBranchScan, h1, h2, h3]]
          rw [defaultBranchScan_some id t g]
          have hc : defaultBranchCandidate id h = true := by
            simp [defaultBranchCandidate, h1, h2]
          simp [hc, List.find?_cons, h3]
      · have hc : defaultBranchCandidate id h = false := by
          simp [defaultBranchCandidate, h2]
        rw [show defaultBranchScan id (h :: t) (some g) =
            defaultBranchScan id t (some g) by simp [defaultBranchScan, h1, h2]]
        rw [defaultBranchScan_some id t g]
        simp [hc]
    · have hc : defaultBranchCandidate id h = false := by
        simp [defaultBranchCandidate, h1]
      rw [show defaultBranchScan id (h :: t) (some g) =
          defaultBranchScan id t (some g) by simp [defaultBranchScan, h1]]
      rw [defaultBranchScan_some id t g]
      simp [hc]

theorem defaultBranchScan_none (id : Oid) :
    ∀ tail : List RemoteHead,
      defaultBranchScan id tail none =
        match tail.filter (defaultBranchCandidate id) with
        | [] => none
        | c :: cs =>
          some ((cs.find? (fun h => h.name == "refs/heads/master")).getD c)
  | [] => by simp [defaultBranchScan]
  | h :: t => by
    by_cases h1 : h.oid = id
    · by_cases h2 : strIsPrefix "refs/heads/" h.name
      · have hc : defaultBranchCandidate id h = true := by
          simp [defaultBranchCandidate, h1, h2]
        rw [show defaultBranchScan id (h :: t) none =
            defaultBranchScan id t (some h) by simp [defaultBranchScan, h1, h2]]
        rw [defaultBranchScan_some id t h]
        simp only [List.filter_cons, hc, if_true]
        cases hf : (t.filter (defaultBranchCandidate id)).find?
            (fun h => h.name == "refs/heads/master") <;> simp [hf]
      · have hc : defaultBranchCandidate id h = false := by
          simp [defaultBranchCandidate, h2]
        rw [show defaultBranchScan id (h :: t) none =
            defaultBranchScan id t none by simp [defaultBranchScan, h1, h2]]
        rw [defaultBranchScan_none id t]
        simp [hc]
    · have hc : defaultBranchCandidate id h = false := by
        simp [defaultBranchCandidate, h1]
      rw [show defaultBranchScan id (h :: t) none =
          defaultBranchScan id t none by simp [defaultBranchScan, h1]]
      rw [defaultBranchScan_none id t]
      simp [hc]

/-- C9: `git_remote_default_branch` returns the symbolic target of the
first advertised head when that head is literally `HEAD` and carries one;
otherwise, among the advertised heads under `refs/heads/` whose object id
equals `HEAD`'s, it returns `refs/heads/master` when that is a candidate,
else the first candidate; with no candidate, no heads, or a first head not
named `HEAD` it fails with not-found. -/
theorem default_branch_spec (heads : List RemoteHead) :
    (heads = [] → git_remote_default_branch heads = (GIT_ENOTFOUND, none)) ∧
    (∀ h0 rest, heads = h0 :: rest →
      (h0.name ≠ "HEAD" →
        git_remote_default_branch heads = (GIT_ENOTFOUND, none)) ∧
      (h0.name = "HEAD" →
        (∀ t, h0.symrefTarget = some t →
          git_remote_default_branch heads = (GIT_OK, some t)) ∧
        (h0.symrefTarget = none →
          (heads.filter (defaultBranchCandidate h0.oid) = [] →
            git_remote_default_branch heads = (GIT_ENOTFOUND, none)) ∧
          ((∃ m ∈ heads.filter (defaultBranchCandidate h0.oid),
              m.name = "refs/heads/master") →
            git_remote_default_branch heads = (GIT_OK, some "refs/heads/master")) ∧
          (∀ c cs, heads.filter (defaultBranchCandidate h0.oid) = c :: cs →
            (¬ ∃ m ∈ heads.filter (defaultBranchCandidate h0.oid),
              m.name = "refs/heads/master") →
            git_remote_default_branch heads = (GIT_OK, some c.name))))) := by
  constructor
  · intro h
    simp [h, git_remote_default_branch]
  · intro h0 rest hh
    have hfilter : h0.name = "HEAD" →
        heads.filter (defaultBranchCandidate h0.oid) =
          rest.filter (defaultBranchCandidate h0.oid) := by
      intro hname
      have hpre : strIsPrefix "refs/heads/" h0.name = false := by
        rw [hname]
        decide
      have : defaultBranchCandidate h0.oid h0 = false := by
        simp [defaultBranchCandidate, hpre]
      simp [hh, List.filter_cons, this]
    refine ⟨?_, ?_⟩
    · intro hname
      simp [hh, git_remote_default_branch, hname]
    · intro hname
      refine ⟨?_, ?_⟩
      · intro t ht
        simp [hh, git_remote_default_branch, hname, ht]
      · intro hsym
        rw [hfilter hname]
        have hbody : ∀ s, defaultBranchScan h0.oid rest none = s →
            git_remote_default_branch heads =
              (match s with
              | none => (GIT_ENOTFOUND, none)
              | some g => (GIT_OK, some g.name)) := by
          intro s hs
          simp [hh, git_remote_default_branch, hname, hsym, hs]
        refine ⟨?_, ?_, ?_⟩
        · intro hempty
          have hscan : defaultBranchScan h0.oid rest none = none := by
            rw [defaultBranchScan_none h0.oid rest, hempty]
          exact hbody none hscan
        · rintro ⟨m, hm, hmname⟩
          rcases hcs : rest.filter (defaultBranchCandidate h0.oid) with _ | ⟨c, cs⟩
          · rw [hcs] at hm
            simp at hm
          · have hscan : defaultBranchScan h0.oid rest none =
                some ((cs.find? (fun h => h.name == "refs/heads/master")).getD c) := by
              rw [defaultBranchScan_none h0.oid rest, hcs]
            rw [hcs] at hm
            by_cases hcm : c.name = "refs/heads/master"
            · rcases hf : cs.find? (fun h => h.name == "refs/heads/master") with _ | m'
              · have hres := hbody _ hscan
                rw [hf] at hres
                simpa [hcm] using hres
              · have hm'name : m'.name = "refs/heads/master" := by
                  have := List.find?_some hf
                  simpa using this
                have hres := hbody _ hscan
                rw [hf] at hres
                simpa [hm'name] using hres
            · have hm' : m ∈ cs := by
                rcases List.mem_cons.mp hm with h' | h'
                · exact absurd (h' ▸ hmname) hcm
                · exact h'
              have hfs : (cs.find? (fun h => h.name == "refs/heads/master")).isSome := by
                rw [List.find?_isSome]
                exact ⟨m, hm', by simp [hmname]⟩
              rcases hf : cs.find? (fun h => h.name == "refs/heads/master") with _ | m'
              · rw [hf] at hfs
                simp at hfs
              · have hm'name : m'.name = "refs/heads/master" := by
                  have := List.find?_some hf
                  simpa using this
                have hres := hbody _ hscan
                rw [hf] at hres
                simpa [hm'name] using hres
        · intro c cs hcs hno
          have hscan : defaultBranchScan h0.oid rest none =
              some ((cs.find? (fun h => h.name == "refs/heads/master")).getD c) := by
            rw [defaultBranchScan_none h0.oid rest, hcs]
          have hf : cs.find? (fun h => h.name == "refs/heads/master") = none := by
            rw [List.find?_eq_none]
            intro x hx
            simp only [beq_iff_eq]
            intro hxname
            exact hno ⟨x, by rw [hcs]; exact List.mem_cons_of_mem _ hx, hxname⟩
          have hres := hbody _ hscan
          rw [hf] at hres
          simpa using hres

/-- C9 witness: with `HEAD` lacking symref data, `refs/heads/master` is
preferred among the candidates sharing `HEAD`'s id. -/
theorem default_branch_spec_witness :
    git_remote_default_branch
        [⟨"HEAD", 5, none⟩, ⟨"refs/heads/dev", 5, none⟩,
          ⟨"refs/heads/master", 5, none⟩] = (GIT_OK, some "refs/heads/master") :=
  ((((default_branch_spec _).2 ⟨"HEAD", 5, none⟩ _ rfl).2 rfl).2 rfl).2.1
    ⟨⟨"refs/heads/master", 5, none⟩, by decide, rfl⟩

/-- C10: for a valid remote name and a parsable refspec,
`git_remote_add_fetch` and `git_remote_add_push` return 0 whatever the
result of the guarded config multivar write; their only reported error is
invalid-spec, produced exactly when the name is invalid or the refspec does
not parse. -/
theorem add_refspec_swallows_write_error (name refspec : String) (w : Int) :
    (git_remote_add_fetch name refspec w = GIT_OK ↔
      (git_remote_is_valid_name name ∧ (parseRefspec true refspec).isSome)) ∧
    (git_remote_add_push name refspec w = GIT_OK ↔
      (git_remote_is_valid_name name ∧ (parseRefspec false refspec).isSome)) ∧
    (git_remote_add_fetch name refspec w ≠ GIT_OK →
      git_remote_add_fetch name refspec w = GIT_EINVALIDSPEC) ∧
    (git_remote_add_push name refspec w ≠ GIT_OK →
      git_remote_add_push name refspec w = GIT_EINVALIDSPEC) := by
  unfold git_remote_add_fetch git_remote_add_push write_add_refspec
  by_cases h1 : git_remote_is_valid_name name
  · by_cases h2 : (parseRefspec true refspec).isNone
    · by_cases h3 : (parseRefspec false refspec).isNone
      · simp_all [Option.isNone_iff_eq_none, GIT_OK, GIT_EINVALIDSPEC]
      · simp_all [Option.isNone_iff_eq_none, Option.isSome_iff_ne_none,
          GIT_OK, GIT_EINVALIDSPEC]
    · by_cases h3 : (parseRefspec false refspec).isNone
      · simp_all [Option.isNone_iff_eq_none, Option.isSome_iff_ne_none,
          GIT_OK, GIT_EINVALIDSPEC]
      · simp_all [Option.isNone_iff_eq_none, Option.isSome_iff_ne_none,
          GIT_OK, GIT_EINVALIDSPEC]
  · simp_all [GIT_OK, GIT_EINVALIDSPEC]

/-- C10 witness: a failing write (`-1`) still yields success for a valid
name and spec. -/
theorem add_refspec_swallows_write_error_witness :
    git_remote_add_fetch "origin" "+refs/heads/*:refs/remotes/origin/*" (-1) = GIT_OK :=
  (add_refspec_swallows_write_error "origin" "+refs/heads/*:refs/remotes/origin/*"
      (-1)).1.mpr ⟨by decide, by decide⟩

/-- C7 (amended): for a valid name, `git_remote_lookup` fails with
not-found exactly when neither `remote.<name>.url` nor
`remote.<name>.pushurl` is present in config; when at least one is present
the result is never not-found, though hydration itself may still fail
(e.g. on a malformed configured refspec). -/
theorem lookup_notfound_iff (name : String) (cfg : RemoteConfig)
    (hv : git_remote_is_valid_name name) :
    ((git_remote_lookup name cfg).1 = GIT_ENOTFOUND ↔
      (cfg.url = none ∧ cfg.pushurl = none)) := by
  unfold git_remote_lookup
  by_cases hu : cfg.url.isNone ∧ cfg.pushurl.isNone
  · have hu' : cfg.url = none ∧ cfg.pushurl = none := by
      simpa [Option.isNone_iff_eq_none] using hu
    simp [hv, hu, hu'.1, hu'.2]
  · have hu' : ¬(cfg.url = none ∧ cfg.pushurl = none) := by
      simpa [Option.isNone_iff_eq_none] using hu
    rcases h1 : parseSpecs true cfg.fetch with _ | fs <;>
      rcases h2 : parseSpecs false cfg.push with _ | ps <;>
      simp [hv, hu, hu', h1, h2, GIT_ENOTFOUND, GIT_ERROR, GIT_OK]

/-- C7 witness: a config with neither url key yields not-found. -/
theorem lookup_notfound_iff_witness :
    (git_remote_lookup "origin"
        ⟨none, none, [], [], none, none, none, [], []⟩).1 = GIT_ENOTFOUND :=
  (lookup_notfound_iff "origin" ⟨none, none, [], [], none, none, none, [], []⟩
      (by decide)).mpr ⟨rfl, rfl⟩

/-- C7 counterexample: `remote.origin.url` is set, yet lookup fails (with
`-1`, not success) because the configured fetch refspec `a:b:c` does not
parse — refuting `if at least one of the two keys is set, lookup
succeeds`. -/
theorem lookup_counterexample :
    (git_remote_lookup "origin"
        ⟨some "https://example.test/repo.git", none, ["a:b:c"], [], none,
          none, none, [], []⟩).1 = GIT_ERROR ∧
      GIT_ERROR ≠ GIT_OK ∧
      (some "https://example.test/repo.git" : Option String).isSome = true := by
  refine ⟨by decide, by decide, rfl⟩

set_option maxHeartbeats 1600000 in
/-- C4 (amended): during `update_tips_for_spec`, the `update_tips` callback
is invoked with (refname, old id, new id) exactly after a reference is
actually created or updated; a **negative** return value aborts with no
further heads processed, while a positive return is treated as success. -/
theorem update_tips_callback_contract (env : TipsEnv) (tagopt : TagOption)
    (spec : Refspec) (store : List (String × Oid)) (h : RemoteHead)
    (t : List RemoteHead) (p : HeadStep)
    (hp : processHead env tagopt spec store h = p) :
    (p.aborted = true →
      update_tips_for_spec env tagopt spec store (h :: t) =
        ⟨GIT_ERROR, p.store, p.events, p.creations, p.updateHeads⟩) ∧
    (p.createdRef = none → p.events = []) ∧
    (∀ rn o nw, p.createdRef = some (rn, o, nw) →
      p.events = if env.cb.isSome then [(rn, o, nw)] else []) ∧
    (∀ f rn o, env.cb = some f → p.createdRef = some (rn, o, h.oid) →
      f rn o h.oid < 0 → p.aborted = true) ∧
    (p.aborted = true →
      ∃ f rn o, env.cb = some f ∧ p.createdRef = some (rn, o, h.oid) ∧
        f rn o h.oid < 0) := by
  subst hp
  refine ⟨?_, ?_, ?_, ?_, ?_⟩
  · intro hab
    simp [update_tips_for_spec, hab]
  · simp only [processHead]
    repeat' split
    all_goals simp_all
  · intro rn o nw hcr
    revert hcr
    simp only [processHead]
    repeat' split
    all_goals intros
    all_goals simp_all
    all_goals (rename_i hcr; obtain ⟨h1, h2, h3⟩ := hcr; subst h1; exact h2)
  · intro f rn o hcb hcr hneg
    revert hcr
    simp only [processHead, hcb]
    repeat' split
    all_goals intros
    all_goals simp_all
    all_goals (rename_i hcr; obtain ⟨h1, h2⟩ := hcr; subst h1; rw [h2]; exact hneg)
  · intro hab
    revert hab
    simp only [processHead]
    repeat' split
    all_goals intros
    all_goals simp_all
    all_goals (rename_i hab; exact ⟨_, _, ⟨rfl, rfl⟩, hab⟩)

/-- C4 witness: a callback returning -1 on the first head aborts the loop
with `-1`; the second head is not processed. -/
theorem update_tips_callback_contract_witness :
    update_tips_for_spec negCbEnv TagOption.auto originHeadsSpec []
        [⟨"refs/heads/a", 1, none⟩, ⟨"refs/heads/b", 2, none⟩] =
      ⟨GIT_ERROR, [("refs/remotes/origin/a", 1)],
        [("refs/remotes/origin/a", 0, 1)],
        [("refs/remotes/origin/a", 1, true)], [⟨"refs/heads/a", 1, none⟩]⟩ :=
  (update_tips_callback_contract negCbEnv TagOption.auto originHeadsSpec []
      ⟨"refs/heads/a", 1, none⟩ [⟨"refs/heads/b", 2, none⟩] _ rfl).1 (by decide)

/-- C4 counterexample: the callback returns the non-zero value 1 on every
update, yet the loop continues — both heads produce events and the loop
ends with success — refuting `any non-zero return value from that callback
aborts the operation`. -/
theorem update_tips_positive_return_counterexample :
    (update_tips_for_spec positiveCbEnv TagOption.auto originHeadsSpec []
        [⟨"refs/heads/a", 1, none⟩, ⟨"refs/heads/b", 2, none⟩]).events =
      [("refs/remotes/origin/a", 0, 1), ("refs/remotes/origin/b", 0, 2)] ∧
    (update_tips_for_spec positiveCbEnv TagOption.auto originHeadsSpec []
        [⟨"refs/heads/a", 1, none⟩, ⟨"refs/heads/b", 2, none⟩]).err = GIT_OK ∧
    (1 : Int) ≠ 0 := by
  refine ⟨by decide, by decide, by decide⟩

/-- `git_reference_create` without force over an existing reference reports
already-exists and leaves the store untouched. -/
theorem refCreate_eexists_of_lookup (store : List (String × Oid)) (name : String)
    (oid : Oid) (h : (refLookup store name).isSome) :
    refCreate store name oid false = (GIT_EEXISTS, store) := by
  simp [refCreate, h]

set_option maxHeartbeats 1600000 in
/-- C5 (amended): for an advertised head matching the built-in tag spec with
tag policy ≠ NONE: under AUTO the destination is the head name verbatim,
the tag is created only when the pointed-to object is already in the local
odb, and never with force; under ALL the destination is the head name
verbatim with force — unless the head also matches the source of the spec
being processed, in which case the spec's transform provides the
destination (or, with a destination-less spec, FETCH_HEAD-only handling
applies); an already-exists result (AUTO tag over a differing existing
ref) is silently tolerated: no abort, no callback, store unchanged. -/
theorem update_tips_tag_policy (env : TipsEnv) (tagopt : TagOption)
    (spec : Refspec) (store : List (String × Oid)) (h : RemoteHead)
    (p : HeadStep) (hp : processHead env tagopt spec store h = p)
    (htag : refspecSrcMatches gitRefspecTags h.name = true)
    (hopt : tagopt ≠ TagOption.noTags) :
    (tagopt = TagOption.auto →
      (env.odb.contains h.oid = false → p = ⟨false, store, [], [], none, []⟩) ∧
      (∀ c ∈ p.creations, c.1 = h.name ∧ c.2.2 = false)) ∧
    (tagopt = TagOption.all → refspecSrcMatches spec h.name = false →
      ∀ c ∈ p.creations, c.1 = h.name ∧ c.2.2 = true) ∧
    (tagopt = TagOption.all → refspecSrcMatches spec h.name = true →
      ∀ d, spec.dst = some d →
        ∀ c ∈ p.creations, c.1 = patSubstitute spec.src d h.name ∧ c.2.2 = true) ∧
    (tagopt = TagOption.auto → ∀ o, refLookup store h.name = some o →
      o ≠ h.oid → p.aborted = false ∧ p.events = [] ∧ p.store = store) := by
  subst hp
  have e1 : (TagOption.auto == TagOption.noTags) = false := rfl
  have e2 : (TagOption.auto == TagOption.auto) = true := rfl
  have e3 : (TagOption.all == TagOption.noTags) = false := rfl
  have e4 : (TagOption.all == TagOption.auto) = false := rfl
  refine ⟨?_, ?_, ?_, ?_⟩
  · rintro rfl
    constructor
    · intro hodb
      by_cases hval : env.refNameValid h.name
      · simp only [processHead, htag, hval, e1, e2]
        have hmem : ¬ h.oid ∈ env.odb := by simpa using hodb
        simp [hmem]
      · simp [processHead, hval]
    · intro c hc
      by_cases hval : env.refNameValid h.name
      · revert hc
        simp [processHead, htag, hval, e1, e2]
        repeat' split
        all_goals intro hc
        all_goals simp_all
      · revert hc
        simp [processHead, hval]
  · rintro rfl hsrc
    intro c hc
    by_cases hval : env.refNameValid h.name
    · revert hc
      simp [processHead, htag, hsrc, hval, e3, e4]
      repeat' split
      all_goals intro hc
      all_goals simp_all
    · revert hc
      simp [processHead, hval]
  · rintro rfl hsrc d hd
    intro c hc
    by_cases hval : env.refNameValid h.name
    · revert hc
      simp [processHead, htag, hsrc, hval, hd, e3, e4, refspecTransform]
      repeat' split
      all_goals intro hc
      all_goals simp_all
    · revert hc
      simp [processHead, hval]
  · rintro rfl o ho hne
    by_cases hval : env.refNameValid h.name
    · have hsome : (refLookup store h.name).isSome := by simp [ho]
      have hce : refCreate store h.name h.oid false = (GIT_EEXISTS, store) :=
        refCreate_eexists_of_lookup store h.name h.oid hsome
      by_cases hodb : h.oid ∈ env.odb
      · simp [processHead, htag, hval, hodb, e1, e2, ho, hne, hce]
      · simp [processHead, htag, hval, hodb, e1, e2]
    · simp [processHead, hval]

/-- C5 witness: under AUTO, a tag whose object is absent locally produces
no reference, no creation attempt and no event. -/
theorem update_tips_tag_policy_witness :
    processHead noCbEnv TagOption.auto originHeadsSpec [] ⟨"refs/tags/v1", 7, none⟩ =
      ⟨false, [], [], [], none, []⟩ :=
  ((update_tips_tag_policy noCbEnv TagOption.auto originHeadsSpec []
      ⟨"refs/tags/v1", 7, none⟩ _ rfl (by decide) (by decide)).1 rfl).1 (by decide)

/-- C5 counterexample: with policy ALL and the active spec
`+refs/tags/*:refs/remotes/origin/tags/*`, the tag head `refs/tags/v1` is
created at the spec's transform `refs/remotes/origin/tags/v1`, not at the
head name verbatim — refuting `the destination ref name is the head name
verbatim` for every policy ≠ NONE. -/
theorem update_tips_tag_verbatim_counterexample :
    (processHead noCbEnv TagOption.all originTagsSpec []
        ⟨"refs/tags/v1", 1, none⟩).creations =
      [("refs/remotes/origin/tags/v1", 1, true)] ∧
    ("refs/remotes/origin/tags/v1" : String) ≠ "refs/tags/v1" := by
  refine ⟨by decide, by decide⟩

theorem refStoreLookup_mem (store : RefStore)
    (hnd : (store.map (·.1)).Nodup) :
    ∀ p ∈ store, refStoreLookup store p.1 = some p.2 := by
  induction store with
  | nil => simp
  | cons q rest ih =>
    intro p hp
    simp only [List.map_cons, List.nodup_cons] at hnd
    rcases List.mem_cons.mp hp with rfl | hmem
    · simp [refStoreLookup]
    · have hne : ¬((q.1 == p.1) = true) := by
        simp only [beq_iff_eq]
        intro he
        exact hnd.1 (he ▸ List.mem_map_of_mem (·.1) hmem)
      unfold refStoreLookup
      rw [List.find?_cons_of_neg _ (by simpa using hne)]
      exact ih hnd.2 p hmem

theorem refStoreLookup_none (store : RefStore) (n : String)
    (h : refStoreLookup store n = none) : ∀ p ∈ store, p.1 ≠ n := by
  intro p hp he
  unfold refStoreLookup at h
  rcases hf : store.find? (fun r => r.1 == n) with _ | q
  · have := List.find?_eq_none.mp hf p hp
    exact this (by simp [he])
  · simp [hf] at h

theorem refStoreDelete_lookup (store : RefStore) (n m : String) (hne : m ≠ n) :
    refStoreLookup (refStoreDelete store n) m = refStoreLookup store m := by
  induction store with
  | nil => rfl
  | cons q rest ih =>
    by_cases hq : (q.1 == n) = true
    · have hqm : ¬((q.1 == m) = true) := by
        simp only [beq_iff_eq] at hq ⊢
        intro h
        exact hne (h ▸ hq ▸ rfl)
      have hdel : refStoreDelete (q :: rest) n = refStoreDelete rest n := by
        simp [refStoreDelete, List.filter_cons, hq]
      rw [hdel, ih]
      unfold refStoreLookup
      rw [List.find?_cons_of_neg _ (by simpa using hqm)]
    · have hdel : refStoreDelete (q :: rest) n = q :: refStoreDelete rest n := by
        simp [refStoreDelete, List.filter_cons, hq]
      rw [hdel]
      by_cases hqm : (q.1 == m) = true
      · unfold refStoreLookup
        rw [List.find?_cons_of_pos _ (by simpa using hqm),
          List.find?_cons_of_pos _ (by simpa using hqm)]
      · unfold refStoreLookup
        rw [List.find?_cons_of_neg _ (by simpa using hqm),
          List.find?_cons_of_neg _ (by simpa using hqm)]
        exact ih

theorem refStoreDelete_nodup (store : RefStore) (n : String)
    (hnd : (store.map (·.1)).Nodup) :
    ((refStoreDelete store n).map (·.1)).Nodup :=
  List.Nodup.sublist ((List.filter_sublist store).map (·.1)) hnd

theorem pruneMark_filterMap_id (A : List Refspec) (H : List RemoteHead) :
    ∀ cands : List String,
      (pruneMark A H cands).filterMap id =
        cands.filter (fun n => !pruneKeep A H n)
  | [] => rfl
  | n :: rest => by
    have ih := pruneMark_filterMap_id A H rest
    by_cases hk : pruneKeep A H n
    · rw [show pruneMark A H (n :: rest) = none :: pruneMark A H rest by
        simp [pruneMark, hk]]
      rw [List.filterMap_cons, List.filter_cons]
      simp [hk, ih]
    · rw [show pruneMark A H (n :: rest) = some n :: pruneMark A H rest by
        simp [pruneMark, hk]]
      rw [List.filterMap_cons, List.filter_cons]
      simp [hk, ih]

theorem pruneMark_mem (A : List Refspec) (H : List RemoteHead)
    (cands : List String) (x : String) :
    (some x ∈ pruneMark A H cands) ↔
      (x ∈ cands ∧ pruneKeep A H x = false) := by
  simp only [pruneMark, List.mem_map]
  constructor
  · rintro ⟨n, hn, hmark⟩
    by_cases hk : pruneKeep A H n
    · simp [hk] at hmark
    · simp [hk] at hmark
      subst hmark
      exact ⟨hn, by simpa using hk⟩
  · rintro ⟨hx, hk⟩
    exact ⟨x, hx, by simp [hk]⟩

/-- The event a candidate contributes, read off the initial store. -/
def pruneEventOf (store : RefStore) (m : Option String) :
    Option (String × Oid × Oid) :=
  m.bind (fun n =>
    match refStoreLookup store n with
    | some (RefVal.direct o) => some (n, o, 0)
    | _ => none)

theorem pruneDeleteLoop_chars (f : String → Oid → Oid → Int)
    (hf : ∀ n o, 0 ≤ f n o 0) :
    ∀ (marked : List (Option String)) (store : RefStore),
      (store.map (·.1)).Nodup →
      (marked.filterMap id).Nodup →
      pruneDeleteLoop (some f) marked store =
        ⟨GIT_OK,
         store.filter (fun p => !(decide (some p.1 ∈ marked) && isDirectRef p.2)),
         marked.filterMap (pruneEventOf store)⟩
  | [], store, hnd, hm => by
    simp [pruneDeleteLoop]
  | none :: rest, store, hnd, hm => by
    have hm' : (rest.filterMap id).Nodup := by simpa using hm
    rw [show pruneDeleteLoop (some f) (none :: rest) store =
        pruneDeleteLoop (some f) rest store from rfl,
      pruneDeleteLoop_chars f hf rest store hnd hm']
    refine congrArg₂ (PruneResult.mk GIT_OK) ?_ ?_
    · exact List.filter_congr (by intro p _; simp)
    · simp [pruneEventOf, List.filterMap_cons]
  | some n :: rest, store, hnd, hm => by
    have hmm : some n ∉ rest ∧ (rest.filterMap id).Nodup := by simpa using hm
    have hm' : (rest.filterMap id).Nodup := hmm.2
    have hnotin : n ∉ rest.filterMap id := by
      intro hmem
      rcases List.mem_filterMap.mp hmem with ⟨a, ha, hid⟩
      cases a with
      | none => simp at hid
      | some k =>
        simp only [id, Option.some.injEq] at hid
        exact hmm.1 (hid ▸ ha)
    rcases hlook : refStoreLookup store n with _ | v
    · rw [show pruneDeleteLoop (some f) (some n :: rest) store =
          pruneDeleteLoop (some f) rest store by
        simp [pruneDeleteLoop, hlook],
        pruneDeleteLoop_chars f hf rest store hnd hm']
      have habsent := refStoreLookup_none store n hlook
      refine congrArg₂ (PruneResult.mk GIT_OK) ?_ ?_
      · refine List.filter_congr ?_
        intro p hp
        have : ¬ ((some p.1 : Option String) = some n) := by
          simpa using habsent p hp
        simp [List.mem_cons, this]
      · simp [List.filterMap_cons, pruneEventOf, hlook]
    · cases v with
      | symbolic t =>
        rw [show pruneDeleteLoop (some f) (some n :: rest) store =
            pruneDeleteLoop (some f) rest store by
          simp [pruneDeleteLoop, hlook],
          pruneDeleteLoop_chars f hf rest store hnd hm']
        refine congrArg₂ (PruneResult.mk GIT_OK) ?_ ?_
        · refine List.filter_congr ?_
          intro p hp
          by_cases hpn : p.1 = n
          · have hv : p.2 = RefVal.symbolic t := by
              have h1 := refStoreLookup_mem store hnd p hp
              rw [hpn, hlook] at h1
              exact (Option.some.injEq _ _ ▸ h1).symm
            simp [hv, isDirectRef]
          · have : ¬ ((some p.1 : Option String) = some n) := by simpa using hpn
            simp [List.mem_cons, this]
        · simp [List.filterMap_cons, pruneEventOf, hlook]
      | direct o =>
        rw [show pruneDeleteLoop (some f) (some n :: rest) store =
            ⟨(pruneDeleteLoop (some f) rest (refStoreDelete store n)).err,
             (pruneDeleteLoop (some f) rest (refStoreDelete store n)).store,
             (n, o, 0) ::
               (pruneDeleteLoop (some f) rest (refStoreDelete store n)).events⟩ by
          have hnl : ¬ (f n o 0 < 0) := not_lt.mpr (hf n o)
          simp [pruneDeleteLoop, hlook, hnl],
          pruneDeleteLoop_chars f hf rest (refStoreDelete store n)
            (refStoreDelete_nodup store n hnd) hm']
        refine congrArg₂ (PruneResult.mk GIT_OK) ?_ ?_
        · rw [show refStoreDelete store n = store.filter (fun p => !(p.1 == n)) from rfl,
            List.filter_filter]
          refine List.filter_congr ?_
          intro p hp
          by_cases hpn : p.1 = n
          · have hv : p.2 = RefVal.direct o := by
              have h1 := refStoreLookup_mem store hnd p hp
              rw [hpn, hlook] at h1
              exact (Option.some.injEq _ _ ▸ h1).symm
            simp [hpn, hv, isDirectRef]
          · have : ¬ ((some p.1 : Option String) = some n) := by simpa using hpn
            simp [List.mem_cons, this, hpn]
        · rw [List.filterMap_cons]
          have hhead : pruneEventOf store (some n) = some (n, o, 0) := by
            simp [pruneEventOf, hlook]
          rw [hhead]
          refine congrArg _ ?_
          refine List.filterMap_congr ?_
          intro m hm''
          rcases m with _ | k
          · rfl
          · have hkn : k ≠ n := by
              intro he
              exact hnotin (he ▸ List.mem_filterMap.mpr ⟨some k, hm'', rfl⟩)
            simp [pruneEventOf, refStoreDelete_lookup store n k hkn]

/-- C3 (amended): with a non-vetoing callback, prune removes exactly those
local refs whose name destination-matches some active fetch refspec, whose
reverse-transform under **every** destination-matching active refspec (push
specs included) is absent from the advertised heads, and which are not
symbolic; for each deleted ref `update_tips` fires with the old id and the
zero id, in store order. -/
theorem prune_spec (active : List Refspec) (heads : List RemoteHead)
    (store : RefStore) (f : String → Oid → Oid → Int)
    (hf : ∀ n o, 0 ≤ f n o 0)
    (hnd : (store.map (·.1)).Nodup) :
    (git_remote_prune (some f) active heads store).err = GIT_OK ∧
    (git_remote_prune (some f) active heads store).store =
      store.filter (fun p => !pruneTargetB active heads store p.1) ∧
    (git_remote_prune (some f) active heads store).events =
      store.filterMap (fun p =>
        if pruneTargetB active heads store p.1 then some (p.1, refValOid p.2, 0)
        else none) ∧
    (∀ name, pruneTargetB active heads store name = true ↔
      ((∃ s ∈ active, s.push = false ∧ refspecDstMatches s name = true) ∧
       (∀ s ∈ active, refspecDstMatches s name = true →
         headAdvertised heads ((refspecRtransform s name).getD "") = false) ∧
       ∃ o, refStoreLookup store name = some (RefVal.direct o))) := by
  have hcnd : (prune_candidates active store).Nodup := by
    have h := List.Nodup.filter (git_remote__matching_dst_refspec active) hnd
    simpa [prune_candidates] using h
  have hmk : ((pruneMark active heads (prune_candidates active store)).filterMap id).Nodup := by
    rw [pruneMark_filterMap_id]
    exact List.Nodup.filter _ hcnd
  have hmain := pruneDeleteLoop_chars f hf
    (pruneMark active heads (prune_candidates active store)) store hnd hmk
  refine ⟨?_, ?_, ?_, ?_⟩
  · rw [git_remote_prune, hmain]
  · rw [git_remote_prune, hmain]
    refine List.filter_congr ?_
    intro p hp
    have hlook := refStoreLookup_mem store hnd p hp
    have hcands : p.1 ∈ prune_candidates active store ↔
        git_remote__matching_dst_refspec active p.1 = true :=
      ⟨fun h => (List.mem_filter.mp h).2,
       fun h => List.mem_filter.mpr ⟨List.mem_map_of_mem _ hp, h⟩⟩
    have hdec : decide (some p.1 ∈ pruneMark active heads (prune_candidates active store)) =
        (git_remote__matching_dst_refspec active p.1 && !pruneKeep active heads p.1) := by
      by_cases h1 : git_remote__matching_dst_refspec active p.1 = true <;>
        by_cases h2 : pruneKeep active heads p.1 = true <;>
        simp [pruneMark_mem, hcands, h1, h2]
    rw [hdec]
    unfold pruneTargetB
    rw [hlook]
    cases hv : p.2 with
    | direct o =>
      cases hA : git_remote__matching_dst_refspec active p.1 <;>
        cases hK : pruneKeep active heads p.1 <;> rfl
    | symbolic t =>
      cases hA : git_remote__matching_dst_refspec active p.1 <;>
        cases hK : pruneKeep active heads p.1 <;> rfl
  · rw [git_remote_prune, hmain]
    rw [show pruneMark active heads (prune_candidates active store) =
        (prune_candidates active store).map
          (fun n => if pruneKeep active heads n then none else some n) from rfl]
    rw [List.filterMap_map]
    rw [show prune_candidates active store =
        (store.map (·.1)).filter (git_remote__matching_dst_refspec active) from rfl]
    rw [List.filterMap_filter]
    rw [List.filterMap_map]
    refine List.filterMap_congr ?_
    intro p hp
    have hlook := refStoreLookup_mem store hnd p hp
    by_cases h1 : git_remote__matching_dst_refspec active p.1 = true <;>
      by_cases h2 : pruneKeep active heads p.1 = true <;>
      cases hv : p.2 <;>
      simp [pruneTargetB, pruneEventOf, hlook, h1, h2, hv, isDirectRef, refValOid,
        Function.comp]
  · intro name
    unfold pruneTargetB
    rcases hl : refStoreLookup store name with _ | v
    · simp only [hl]
      constructor
      · intro h
        simp at h
      · rintro ⟨-, -, o, ho⟩
        simp at ho
    · cases v with
      | symbolic t =>
        simp only [hl]
        constructor
        · intro h
          simp at h
        · rintro ⟨-, -, o, ho⟩
          simp at ho
      | direct o =>
        simp only [hl]
        constructor
        · intro h
          have h' : git_remote__matching_dst_refspec active name = true ∧
              pruneKeep active heads name = false := by
            simpa using h
          refine ⟨?_, ?_, o, rfl⟩
          · simpa [git_remote__matching_dst_refspec, List.any_eq_true,
              Bool.and_eq_true, Bool.not_eq_true'] using h'.1
          · intro s hs hdst
            by_contra hadv
            have hadv' : headAdvertised heads ((refspecRtransform s name).getD "") = true := by
              simpa using hadv
            have hkt : pruneKeep active heads name = true := by
              simp only [pruneKeep, List.any_eq_true]
              exact ⟨s, hs, by simp [hdst, hadv']⟩
            have hkeep := h'.2
            rw [hkt] at hkeep
            exact absurd hkeep (by decide)
        · rintro ⟨hex, hall, o', ho⟩
          have hm : git_remote__matching_dst_refspec active name = true := by
            simp only [git_remote__matching_dst_refspec, List.any_eq_true]
            obtain ⟨s, hs, hpush, hdst⟩ := hex
            exact ⟨s, hs, by simp [hpush, hdst]⟩
          have hk : pruneKeep active heads name = false := by
            by_cases hkt : pruneKeep active heads name = true
            · exfalso
              have hex' : ∃ s ∈ active, (refspecDstMatches s name &&
                  headAdvertised heads ((refspecRtransform s name).getD "")) = true := by
                simpa [pruneKeep, List.any_eq_true] using hkt
              obtain ⟨s, hs, hsb⟩ := hex'
              have hsb' := Bool.and_eq_true_iff.mp hsb
              have := hall s hs hsb'.1
              rw [this] at hsb'
              exact absurd hsb'.2 (by decide)
            · simpa using hkt
          simp [hm, hk]

/-- C3 witness: with `refs/heads/main` the only advertised head,
`refs/remotes/origin/stale` is deleted (firing old-id → zero-id) while the
up-to-date branch and the symbolic `origin/HEAD` survive. -/
theorem prune_spec_witness :
    (git_remote_prune (some (fun _ _ _ => 0)) [originHeadsSpec]
        [⟨"refs/heads/main", 1, none⟩]
        [("refs/remotes/origin/main", RefVal.direct 1),
         ("refs/remotes/origin/stale", RefVal.direct 2),
         ("refs/remotes/origin/HEAD", RefVal.symbolic "refs/remotes/origin/main")]).events =
      [("refs/remotes/origin/stale", 2, 0)] := by
  have h := prune_spec [originHeadsSpec] [⟨"refs/heads/main", 1, none⟩]
    [("refs/remotes/origin/main", RefVal.direct 1),
     ("refs/remotes/origin/stale", RefVal.direct 2),
     ("refs/remotes/origin/HEAD", RefVal.symbolic "refs/remotes/origin/main")]
    (fun _ _ _ => 0) (fun _ _ => le_refl 0) (by decide)
  rw [h.2.2.1]
  decide

/-- C3 counterexample: `refs/remotes/origin/x` destination-matches the
active fetch spec `+refs/tags/*:refs/remotes/origin/*` whose
reverse-transform `refs/tags/x` is not advertised, so the claim (read over
a single spec) predicts deletion; but the ref also destination-matches
`+refs/heads/*:refs/remotes/origin/*` whose reverse-transform
`refs/heads/x` **is** advertised, and `git_remote_prune` keeps it. -/
theorem prune_counterexample :
    pruneClaimTarget [originHeadsSpec, tagsToRemotesSpec]
        [⟨"refs/heads/x", 1, none⟩]
        [("refs/remotes/origin/x", RefVal.direct 1)] "refs/remotes/origin/x" = true ∧
    (git_remote_prune (some (fun _ _ _ => 0)) [originHeadsSpec, tagsToRemotesSpec]
        [⟨"refs/heads/x", 1, none⟩]
        [("refs/remotes/origin/x", RefVal.direct 1)]).store =
      [("refs/remotes/origin/x", RefVal.direct 1)] ∧
    (git_remote_prune (some (fun _ _ _ => 0)) [originHeadsSpec, tagsToRemotesSpec]
        [⟨"refs/heads/x", 1, none⟩]
        [("refs/remotes/origin/x", RefVal.direct 1)]).events = [] := by
  refine ⟨by decide, by decide, by decide⟩

/-- C1: evaluation at the failing input.  A synchronous connect whose
transport suspends and whose first `select` call then fails returns the
terminal result `GIT_ERROR` (not would-block) while the pending-callback
stack still holds the two resume frames; every subsequent high-level entry
point — its `check_busy` guard evaluated here through
`git_remote_connect` — then fails with busy, contradicting `after any
terminal result the pending-callback stack is empty`. -/
theorem connect_select_failure_leaves_stack :
    (git_remote_connectRun connBugOracle true 5 ⟨[], 0, 0⟩).1 = GIT_ERROR ∧
    GIT_ERROR ≠ GIT_EAGAIN ∧
    (git_remote_connectRun connBugOracle true 5 ⟨[], 0, 0⟩).2.stack =
      [Frame.connectPerform, Frame.externalFrame 0] ∧
    check_busy (git_remote_connectRun connBugOracle true 5 ⟨[], 0, 0⟩).2.stack =
      GIT_EBUSY ∧
    (git_remote_connectRun connBugOracle true 5
        (git_remote_connectRun connBugOracle true 5 ⟨[], 0, 0⟩).2).1 = GIT_EBUSY := by
  refine ⟨by decide, by decide, by decide, by decide, by decide⟩

end Libgit2Remote
